import Mathlib

/-!
Shallow embedding of the condenses-validating core: response validation
(response_processor.py, protocol.py), scoring utilities (score_utils.py),
and the Redis-backed scoring ledger (redis_manager.py).

Numeric values that are Python floats are modelled as exact rationals;
Python exceptions are modelled with `Except`; the deterministic external
tokenizer (tiktoken) is a parameter `enc : String → Nat` giving the token
count of a string.
-/

namespace CondensesValidating

/-- Python runtime errors that the modelled code can raise. -/
inductive PyErr where
  /-- Raised by `a / b` when a token count divides by zero. -/
  | zeroDivision : PyErr
  /-- Raised when a function is called with the wrong number of arguments. -/
  | typeError : PyErr
deriving DecidableEq, Repr

/-- Model of `TextCompresssProtocol` (protocol.py): the fields used by the
validation and scoring paths. `context` is the reference text carried by the
synapse, `compressed_context` the miner's compression, `is_success` the
dendrite status flag. The `user_message` payload is modelled as its text. -/
structure Synapse where
  context : String := ""
  compressed_context : String := ""
  user_message : String := ""
  is_success : Bool := false
deriving DecidableEq, Repr

/-- Truthiness of a Python tuple value: a pair (a 2-tuple) is always truthy,
whatever its components. `TextCompresssProtocol.verify` returns a
`(bool, str)` tuple, so call sites testing it with `and` / `not` see a
truthy value unconditionally. -/
def pyTruthy (_t : Bool × String) : Bool :=
  true

/-- Model of the `compress_rate` property (protocol.py): token count of
`compressed_context` over token count of `context`; Python raises
`ZeroDivisionError` when the reference has zero tokens. -/
def compress_rate_prop (enc : String → Nat) (s : Synapse) : Except PyErr ℚ :=
  if enc s.context = 0 then .error .zeroDivision
  else .ok ((enc s.compressed_context : ℚ) / (enc s.context : ℚ))

/-- Model of `TextCompresssProtocol.verify` (protocol.py): empty compressed
context fails; a compress rate above the configured maximum fails; else ok.
The returned value is the source's `(bool, str)` tuple. -/
def Synapse.verify (enc : String → Nat) (maxRate : ℚ) (s : Synapse) :
    Except PyErr (Bool × String) :=
  if s.compressed_context = "" then
    .ok (false, "Compressed context is empty")
  else do
    let r ← compress_rate_prop enc s
    if r > maxRate then
      .ok (false, "Compress rate is too high")
    else
      .ok (true, "Valid")

/-- Model of `ResponseProcessor.get_compress_rate` (response_processor.py):
token count of the response's compressed context over the token count of the
ground-truth context. -/
def get_compress_rate (enc : String → Nat) (response : Synapse)
    (ground_truth_context : String) : Except PyErr ℚ :=
  if enc ground_truth_context = 0 then .error .zeroDivision
  else .ok ((enc response.compressed_context : ℚ) / (enc ground_truth_context : ℚ))

/-- Classification of one `(uid, response)` pair by the loop body of
`ResponseProcessor.validate_responses` (response_processor.py). The main
condition is `response and response.is_success and response.verify() and
get_compress_rate(...) < max_compress_rate`, evaluated with Python
short-circuiting; the `else` branch recomputes the failed test to pick the
reason string. `Sum.inl` is an entry of `valid`, `Sum.inr` of `invalid`. -/
def classify_one (enc : String → Nat) (maxRate : ℚ) (gt : Synapse)
    (uid : ℤ) (response : Option Synapse) :
    Except PyErr ((ℤ × Synapse) ⊕ (ℤ × Option Synapse × String)) :=
  match response with
  | none => .ok (.inr (uid, none, "no_response"))
  | some r =>
    if r.is_success = false then
      .ok (.inr (uid, some r, "not_successful"))
    else do
      let v ← r.verify enc maxRate
      if pyTruthy v = false then
        .ok (.inr (uid, some r, "verification_failed"))
      else do
        let rate ← get_compress_rate enc r gt.context
        if rate < maxRate then
          .ok (.inl (uid, r))
        else if rate > maxRate then
          .ok (.inr (uid, some r, "compress_rate_too_high"))
        else
          .ok (.inr (uid, some r, ""))

/-- Model of `ResponseProcessor.validate_responses` (response_processor.py):
zips uids with responses, classifies each pair in order, and returns the
`(valid, invalid)` partition. An exception raised while classifying a pair
propagates (later pairs are not processed), as in the Python loop. -/
def validate_responses (enc : String → Nat) (maxRate : ℚ)
    (uids : List ℤ) (responses : List (Option Synapse)) (gt : Synapse) :
    Except PyErr (List (ℤ × Synapse) × List (ℤ × Option Synapse × String)) :=
  match uids, responses with
  | uid :: us, r :: rs => do
    let o ← classify_one enc maxRate gt uid r
    let (v, iv) ← validate_responses enc maxRate us rs gt
    match o with
    | .inl ve => .ok (ve :: v, iv)
    | .inr ie => .ok (v, ie :: iv)
  | _, _ => .ok ([], [])

/-- Character class of the regex token `\w`: letters, digits, underscore. -/
def isWordChar (c : Char) : Bool :=
  c.isAlphanum || c = '_'

/-- Grouping of a character list into its maximal runs of word characters;
`acc` holds the reversed current run. -/
def wordsAux : List Char → List Char → List String
  | [], acc => if acc = [] then [] else [String.mk acc.reverse]
  | c :: cs, acc =>
    if isWordChar c then
      wordsAux cs (c :: acc)
    else if acc = [] then
      wordsAux cs []
    else
      String.mk acc.reverse :: wordsAux cs []

/-- Word tokenization of `extract_words` (score_utils.py), the regex scan
`re.findall(r"\b\w+\b", text.lower())`: lower-case the text and take the
maximal runs of word characters (letters, digits and underscore). -/
def extract_words (text : String) : List String :=
  wordsAux (text.data.map Char.toLower) []

/-- Token count of the simple deterministic tokenizer used to instantiate
the abstract `enc` parameter in concrete scenarios: one token per word. -/
def wordTokens (s : String) : Nat :=
  (extract_words s).length

/-- Word-level edit distance recurrence computed by the dynamic-programming
table of `word_edit_distance` (score_utils.py): `dp[i][j]` is the distance
between the first `i` words and the first `j` words, with unit-cost
insert, delete and substitute, and cost 0 on equal words. This function is
that recurrence, stated on the remaining suffixes of the two word lists. -/
def wlev : List String → List String → Nat
  | [], ws2 => ws2.length
  | w1 :: t1, [] => (w1 :: t1).length
  | w1 :: t1, w2 :: t2 =>
    if w1 = w2 then
      wlev t1 t2
    else
      1 + min (wlev t1 (w2 :: t2)) (min (wlev (w1 :: t1) t2) (wlev t1 t2))
termination_by ws1 ws2 => ws1.length + ws2.length
decreasing_by all_goals simp_arith

/-- Model of `word_edit_distance` (score_utils.py): word-level edit
distance between the extracted word lists of the two texts. -/
def word_edit_distance (text1 text2 : String) : Nat :=
  wlev (extract_words text1) (extract_words text2)

/-- Model of `word_edit_similarity` (score_utils.py): `1 - distance /
max_length` when the longer word list is non-empty, else `1.0`. -/
def word_edit_similarity (text1 text2 : String) : ℚ :=
  let distance := word_edit_distance text1 text2
  let max_length := max (extract_words text1).length (extract_words text2).length
  if max_length > 0 then 1 - (distance : ℚ) / (max_length : ℚ) else 1

/-- Accumulation of `total_diff` in `get_text_differentiate_score`
(score_utils.py): the inner loop over `enumerate(texts)` adds
`1 - word_edit_similarity(text1, text2)` for every index `j ≠ i`. -/
def total_diff (texts : List String) (i : Nat) : ℚ :=
  (List.range texts.length).foldl
    (fun acc j =>
      if i ≠ j then
        acc + (1 - word_edit_similarity (texts.getD i "") (texts.getD j ""))
      else acc)
    0

/-- Model of `get_text_differentiate_score` (score_utils.py): `[]` for no
texts, `[1.0]` for one text, otherwise for each index the accumulated
difference against the other texts divided by `n - 1`. -/
def get_text_differentiate_score (texts : List String) : List ℚ :=
  if texts = [] then []
  else if texts.length = 1 then [1]
  else
    (List.range texts.length).map
      (fun i => total_diff texts i / ((texts.length : ℚ) - 1))

/-- Model of `SCORE_ENSEMBLE` (score_utils.py): elementwise
`score * 0.7 + (compress_rate * 0.2 + differentiate_score * 0.1) * score`
over the zip of the three lists (Python `zip` stops at the shortest). -/
def SCORE_ENSEMBLE : List ℚ → List ℚ → List ℚ → List ℚ
  | score :: ss, compress_rate :: cs, differentiate_score :: ds =>
    (score * 0.7 + (compress_rate * 0.2 + differentiate_score * 0.1) * score) ::
      SCORE_ENSEMBLE ss cs ds
  | _, _, _ => []

/-- Model of `ScoringManager.calculate_compress_rates` (score_utils.py):
`1 - token_count / ref_tokens` for each compressed text. Python raises
`ZeroDivisionError` when the reference has zero tokens. -/
def calculate_compress_rates (enc : String → Nat) (ref_text : String)
    (compressed_texts : List String) : Except PyErr (List ℚ) :=
  if enc ref_text = 0 then .error .zeroDivision
  else .ok (compressed_texts.map
    (fun text => 1 - (enc text : ℚ) / (enc ref_text : ℚ)))

/-- Model of `ScoringRateConfig` (config.py) with its defaults. -/
structure ScoringRateConfig where
  interval : Nat := 600
  max_scoring_count : ℤ := 4
  redis_key : String := "scored_uid"
deriving DecidableEq, Repr

/-- Model of the fields of `ValidatingConfig` (config.py) used by the
validation and scoring paths, with their defaults (`max_compress_rate`
is the float `0.8`, modelled as the rational `4/5`). -/
structure ValidatingConfig where
  max_compress_rate : ℚ := 4 / 5
  scoring_rate : ScoringRateConfig := {}
deriving DecidableEq, Repr

/-- Redis key of the ledger key space: the Python source builds the string
`prefix:uid` by f-string interpolation, which is injective in the pair, so
the key is modelled as the pair of the prefix and the uid. -/
abbrev RKey : Type := String × ℤ

/-- Value and remaining-TTL maps of the Redis keys the scoring ledger
touches, modelled as association lists updated with last-write-wins
semantics. Diagnostic `log:*` keys live in a disjoint key space and are
not modelled. -/
structure RedisDB where
  kv : List (RKey × ℤ) := []
  ttl : List (RKey × Nat) := []
deriving DecidableEq, Repr

/-- Lookup of a key in an association list (first match wins; the update
operation keeps at most one entry per key). -/
def assocGet {α : Type} (m : List (RKey × α)) (k : RKey) : Option α :=
  (m.find? (fun p => p.1 = k)).map (fun p => p.2)

/-- Store a key in an association list, replacing any previous entry. -/
def assocSet {α : Type} (m : List (RKey × α)) (k : RKey) (v : α) :
    List (RKey × α) :=
  (k, v) :: m.filter (fun p => p.1 ≠ k)

/-- Redis `INCR`: set the key to one more than its current value, missing
key counting as 0. -/
def RedisDB.incr (db : RedisDB) (k : RKey) : RedisDB :=
  { db with kv := assocSet db.kv k ((assocGet db.kv k).getD 0 + 1) }

/-- Redis `EXPIRE`: set the key's TTL. -/
def RedisDB.expire (db : RedisDB) (k : RKey) (seconds : Nat) : RedisDB :=
  { db with ttl := assocSet db.ttl k seconds }

/-- Model of `RedisManager.get_scored_counter` (redis_manager.py): for each
uid in the given list read the key `scored_uid:{uid}` (the prefix is the
literal string in the source) and collect the found values into a dict. -/
def get_scored_counter (db : RedisDB) (uids : List ℤ) : List (ℤ × ℤ) :=
  uids.filterMap (fun uid =>
    match assocGet db.kv ("scored_uid", uid) with
    | some count => some (uid, count)
    | none => none)

/-- Python `dict.get(k, d)` on an integer-keyed dict modelled as an
association list. -/
def dictGetD (m : List (ℤ × ℤ)) (k : ℤ) (d : ℤ) : ℤ :=
  ((m.find? (fun p => p.1 = k)).map (fun p => p.2)).getD d

/-- Model of `RedisManager.update_scoring_records` (redis_manager.py): for
each uid, `INCR` the key `{config.validating.scoring_rate.redis_key}:{uid}`
and `EXPIRE` it to the configured interval, in list order. -/
def update_scoring_records (db : RedisDB) (uids : List ℤ)
    (cfg : ScoringRateConfig) : RedisDB :=
  uids.foldl
    (fun db uid =>
      let key : RKey := (cfg.redis_key, uid)
      (db.incr key).expire key cfg.interval)
    db

/-- Call of a bound method that has exactly one required positional
parameter, given the argument list the call site supplies: Python raises
`TypeError` unless exactly one argument is passed. -/
def pyCall1 {α β : Type} (f : α → β) (args : List α) : Except PyErr β :=
  match args with
  | [a] => .ok (f a)
  | _ => .error .typeError

/-- Python dict comprehension `{uid: response for uid, response in valid}`
followed by a subscript lookup: later pairs overwrite earlier ones. The
default is never reached at call sites, which look up keys of the dict. -/
def valid_responses_dict (valid : List (ℤ × Synapse)) (uid : ℤ) : Synapse :=
  ((valid.reverse.find? (fun p => p.1 = uid)).map (fun p => p.2)).getD {}

/-- Selection of `uids_to_score` in `ScoringManager.get_scores`
(score_utils.py): the valid uids whose scored counter (0 when missing)
is strictly below `max_scoring_count`. -/
def uids_to_score_of (valid_uids : List ℤ) (scored_counter : List (ℤ × ℤ))
    (max_scoring_count : ℤ) : List ℤ :=
  valid_uids.filter (fun uid => dictGetD scored_counter uid 0 < max_scoring_count)

/-- The `valid_scores_dict` of `ScoringManager.get_scores` (score_utils.py):
every valid uid starts at score 0, then each `(uid, score)` pair of
`zip(uids_to_score, final_scored_responses)` overwrites the entry; this
function is the resulting lookup. -/
def valid_scores_dict_fun (uids_to_score : List ℤ) (final_scores : List ℚ)
    (uid : ℤ) : ℚ :=
  (uids_to_score.zip final_scores).foldl
    (fun acc p => if p.1 = uid then p.2 else acc) 0

/-- Compressed contexts of the responses selected for scoring: the source
builds `responses_to_score = [valid_responses_dict[uid] for uid in
uids_to_score]` and then takes `response.compressed_context` of each
(the same comprehension is written three times in `get_scores`, as the
oracle argument and the compress-rate and differentiate inputs). -/
def compressed_to_score (valid : List (ℤ × Synapse)) (uids_to_score : List ℤ) :
    List String :=
  (uids_to_score.map (valid_responses_dict valid)).map
    (fun r => r.compressed_context)

/-- Lines of `ScoringManager.get_scores` (score_utils.py) following the
scored-counter read: select the eligible valid uids, call the scoring
oracle on their compressed contexts, combine raw scores with compress
rates and differentiate scores, give every other valid uid score 0, record
the scored uids in the ledger, and return `invalid ++ valid` uids and
scores; when no uid is eligible, `valid_uids` and `valid_scores` are
reassigned to the empty list before the concatenation. The external
scoring oracle is the parameter `oracle`. -/
def get_scores_after_counter (enc : String → Nat) (cfg : ValidatingConfig)
    (oracle : List String → List ℚ) (db : RedisDB) (synthetic_synapse : Synapse)
    (valid : List (ℤ × Synapse)) (invalid : List (ℤ × Option Synapse × String))
    (scored_counter : List (ℤ × ℤ)) :
    Except PyErr (List ℤ × List ℚ) × RedisDB :=
  let invalid_uids := invalid.map (fun t => t.1)
  let invalid_scores : List ℚ := invalid.map (fun _ => 0)
  let valid_uids := valid.map (fun p => p.1)
  let uids_to_score :=
    uids_to_score_of valid_uids scored_counter cfg.scoring_rate.max_scoring_count
  if uids_to_score = [] then
    (.ok (invalid_uids ++ ([] : List ℤ), invalid_scores ++ ([] : List ℚ)), db)
  else
    let compressed := compressed_to_score valid uids_to_score
    let scored_responses := oracle compressed
    match calculate_compress_rates enc synthetic_synapse.user_message compressed with
    | .error e => (.error e, db)
    | .ok compress_rates =>
      let differentiate_scores := get_text_differentiate_score compressed
      let final_scored_responses :=
        SCORE_ENSEMBLE scored_responses compress_rates differentiate_scores
      let valid_scores :=
        valid_uids.map (valid_scores_dict_fun uids_to_score final_scored_responses)
      let db2 := update_scoring_records db uids_to_score cfg.scoring_rate
      (.ok (invalid_uids ++ valid_uids, invalid_scores ++ valid_scores), db2)

/-- Model of `ScoringManager.get_scores` (score_utils.py): validate the
responses, return early with the invalid uids and zero scores when nothing
is valid, otherwise read the scored counter — the source calls
`self.redis_manager.get_scored_counter()` with an empty argument list
although the method requires a `uids` parameter — and continue with the
scoring stage. The pair's second component is the Redis state when the
call returns or raises; diagnostic `add_log` writes touch only `log:*`
keys and are not modelled. -/
def get_scores (enc : String → Nat) (cfg : ValidatingConfig)
    (oracle : List String → List ℚ) (db : RedisDB)
    (responses : List (Option Synapse)) (synthetic_synapse : Synapse)
    (uids : List ℤ) : Except PyErr (List ℤ × List ℚ) × RedisDB :=
  match validate_responses enc cfg.max_compress_rate uids responses
      synthetic_synapse with
  | .error e => (.error e, db)
  | .ok (valid, invalid) =>
    let invalid_uids := invalid.map (fun t => t.1)
    let invalid_scores : List ℚ := invalid.map (fun _ => 0)
    let valid_uids := valid.map (fun p => p.1)
    if valid_uids = [] then
      (.ok (invalid_uids, invalid_scores), db)
    else
      match pyCall1 (get_scored_counter db) [] with
      | .error e => (.error e, db)
      | .ok scored_counter =>
        get_scores_after_counter enc cfg oracle db synthetic_synapse valid
          invalid scored_counter

/-!
Helper lemmas about the word-level edit distance.
-/

theorem wlev_nil_right (xs : List String) : wlev xs [] = xs.length := by
  cases xs <;> simp [wlev]

theorem wlev_self (xs : List String) : wlev xs xs = 0 := by
  induction xs with
  | nil => simp [wlev]
  | cons x t ih => simp [wlev, ih]

theorem wlev_comm (xs ys : List String) : wlev xs ys = wlev ys xs := by
  induction xs, ys using wlev.induct with
  | case1 ys => simp [wlev, wlev_nil_right]
  | case2 x t => simp [wlev, wlev_nil_right]
  | case3 t1 w t2 ih => simp [wlev, ih]
  | case4 w1 t1 w2 t2 hne ih1 ih2 ih3 =>
    rw [wlev, wlev]
    rw [if_neg hne, if_neg (fun hh => hne hh.symm)]
    rw [ih1, ih2, ih3]
    omega

theorem wlev_le_max (xs ys : List String) :
    wlev xs ys ≤ max xs.length ys.length := by
  induction xs, ys using wlev.induct with
  | case1 ys => simp [wlev]
  | case2 x t => simp [wlev]
  | case3 t1 w t2 ih =>
    rw [wlev, if_pos rfl]
    simp only [List.length_cons]
    omega
  | case4 w1 t1 w2 t2 hne ih1 ih2 ih3 =>
    rw [wlev, if_neg hne]
    simp only [List.length_cons] at *
    omega

/-!
Concrete inputs for the scenario evaluations: a ten-word reference text and
the three responses of the validator scenario (absent, successful with
compressed text "ok", successful with empty compressed text).
-/

/-- Reference context with ten word tokens. -/
def gtCtx : String := "one two three four five six seven eight nine ten"

/-- Ground-truth synapse of the scenario. -/
def gtSyn : Synapse := { context := gtCtx, user_message := gtCtx }

/-- Scenario response of uid 2: succeeded, compressed text "ok". -/
def respOk : Synapse :=
  { context := gtCtx, compressed_context := "ok", is_success := true }

/-- Scenario response of uid 3: succeeded, empty compressed text. -/
def respEmpty : Synapse :=
  { context := gtCtx, compressed_context := "", is_success := true }

theorem extract_words_gtCtx : extract_words gtCtx =
    ["one", "two", "three", "four", "five", "six", "seven", "eight", "nine",
      "ten"] := by
  simp [gtCtx, extract_words, wordsAux, isWordChar]

theorem wordTokens_gtCtx : wordTokens gtCtx = 10 := by
  simp [wordTokens, extract_words_gtCtx]

theorem wordTokens_ok : wordTokens "ok" = 1 := by
  simp [wordTokens, extract_words, wordsAux, isWordChar]

theorem wordTokens_empty : wordTokens "" = 0 := by
  simp [wordTokens, extract_words, wordsAux]

theorem extract_words_quickfox :
    extract_words "the quick fox" = ["the", "quick", "fox"] := by
  simp [extract_words, wordsAux, isWordChar]

/-- C1: evaluation of `validate_responses` at the spec's validator scenario
(uids `[1, 2, 3]`, responses absent / succeeded with compressed text "ok" /
succeeded with empty compressed text, a ten-token reference, maximum
compress rate `0.8`). The claim expects uid 3 Invalid with reason
VerificationFailed; the code instead classifies uid 3 as Valid, because
`TextCompresssProtocol.verify` returns a `(bool, str)` tuple and the
call sites `response.verify()` / `not response.verify()` test the tuple
itself, which is always truthy, so the structural check never fails and
uid 3 falls through to the compress-rate test with rate `0 < 0.8`. -/
theorem validate_responses_scenario_empty_compressed_is_valid :
    validate_responses wordTokens (4 / 5) [1, 2, 3]
        [none, some respOk, some respEmpty] gtSyn =
      .ok ([(2, respOk), (3, respEmpty)], [(1, none, "no_response")]) := by
  norm_num [validate_responses, classify_one, Synapse.verify, get_compress_rate,
    compress_rate_prop, pyTruthy, gtSyn, respOk, respEmpty, wordTokens_gtCtx,
    wordTokens_ok, wordTokens_empty, bind, Except.bind, pure, Except.pure]
  simp

/-- C5: `SCORE_ENSEMBLE` maps equal-length lists elementwise to
`rawScore * (0.7 + 0.2 * compressRate + 0.1 * differentiateScore)` with no
clamping of the result, and at rawScore `0.8`, compressRate `0.5`,
differentiateScore `0.5` the final score is `0.68`. -/
theorem SCORE_ENSEMBLE_elementwise :
    (∀ (raw_scores compress_rates differentiate_scores : List ℚ),
        raw_scores.length = compress_rates.length →
        raw_scores.length = differentiate_scores.length →
        (SCORE_ENSEMBLE raw_scores compress_rates differentiate_scores).length =
            raw_scores.length ∧
        ∀ i, i < raw_scores.length →
          (SCORE_ENSEMBLE raw_scores compress_rates differentiate_scores).getD i 0 =
            raw_scores.getD i 0 *
              (0.7 + 0.2 * compress_rates.getD i 0 +
                0.1 * differentiate_scores.getD i 0)) ∧
    SCORE_ENSEMBLE [0.8] [0.5] [0.5] = [0.68] := by
  constructor
  · intro rs cs ds h1 h2
    induction rs generalizing cs ds with
    | nil =>
      refine ⟨by simp [SCORE_ENSEMBLE], ?_⟩
      intro i hi
      simp at hi
    | cons r rt ih =>
      cases cs with
      | nil => simp at h1
      | cons c ct =>
        cases ds with
        | nil => simp at h2
        | cons d dt =>
          have h1' : rt.length = ct.length := by simpa using h1
          have h2' : rt.length = dt.length := by simpa using h2
          obtain ⟨hl, he⟩ := ih ct dt h1' h2'
          refine ⟨by simp [SCORE_ENSEMBLE, hl], ?_⟩
          intro i hi
          cases i with
          | zero =>
            simp [SCORE_ENSEMBLE]
            ring
          | succ n =>
            simpa [SCORE_ENSEMBLE] using he n (by simpa using hi)
  · norm_num [SCORE_ENSEMBLE]

/-- Witness for C5: the elementwise formula instantiated at index 1 of the
concrete lists `[1, 2]`, `[3, 4]`, `[5, 6]`. -/
theorem SCORE_ENSEMBLE_elementwise_witness :
    (SCORE_ENSEMBLE [1, 2] [3, 4] [5, 6]).getD 1 0 =
      ([1, 2] : List ℚ).getD 1 0 *
        (0.7 + 0.2 * ([3, 4] : List ℚ).getD 1 0 +
          0.1 * ([5, 6] : List ℚ).getD 1 0) :=
  (SCORE_ENSEMBLE_elementwise.1 [1, 2] [3, 4] [5, 6] rfl rfl).2 1 (by norm_num)

/-- C9: `word_edit_similarity` is 1 on a pair of equal non-empty texts,
symmetric and bounded to `[0, 1]` on non-empty texts, and is given by
`1 - wordLevelEditDistance / max(wordCount, wordCount)` whenever the longer
word list is non-empty. -/
theorem word_edit_similarity_props :
    (∀ t : String, t ≠ "" → word_edit_similarity t t = 1) ∧
    (∀ a b : String, a ≠ "" → b ≠ "" →
      word_edit_similarity a b = word_edit_similarity b a ∧
      0 ≤ word_edit_similarity a b ∧ word_edit_similarity a b ≤ 1) ∧
    (∀ a b : String,
      0 < max (extract_words a).length (extract_words b).length →
      word_edit_similarity a b =
        1 - (word_edit_distance a b : ℚ) /
          (max (extract_words a).length (extract_words b).length : ℚ)) := by
  have hformula : ∀ a b : String,
      0 < max (extract_words a).length (extract_words b).length →
      word_edit_similarity a b =
        1 - (word_edit_distance a b : ℚ) /
          (max (extract_words a).length (extract_words b).length : ℚ) := by
    intro a b h
    simp [word_edit_similarity, h]
  refine ⟨?_, ?_, hformula⟩
  · intro t _
    simp only [word_edit_similarity, word_edit_distance, wlev_self]
    split <;> simp
  · intro a b _ _
    refine ⟨?_, ?_, ?_⟩
    · simp only [word_edit_similarity, word_edit_distance]
      rw [wlev_comm, Nat.max_comm]
    · simp only [word_edit_similarity]
      split
      case isTrue h =>
        have hle := wlev_le_max (extract_words a) (extract_words b)
        have hle' : ((word_edit_distance a b : ℚ)) ≤
            ((max (extract_words a).length (extract_words b).length : ℕ) : ℚ) := by
          exact_mod_cast hle
        have hpos : (0 : ℚ) <
            ((max (extract_words a).length (extract_words b).length : ℕ) : ℚ) := by
          exact_mod_cast h
        have := div_le_one_of_le₀ hle' (le_of_lt hpos)
        linarith
      case isFalse h => norm_num
    · simp only [word_edit_similarity]
      split
      case isTrue h =>
        have hpos : (0 : ℚ) <
            ((max (extract_words a).length (extract_words b).length : ℕ) : ℚ) := by
          exact_mod_cast h
        have : (0 : ℚ) ≤ (word_edit_distance a b : ℚ) / _ :=
          div_nonneg (by positivity) (le_of_lt hpos)
        linarith
      case isFalse h => norm_num

/-- Witness for C9: the similarity properties instantiated at the
non-empty texts "ab" and "cd x". -/
theorem word_edit_similarity_props_witness :
    word_edit_similarity "ab" "ab" = 1 ∧
    word_edit_similarity "ab" "cd x" = word_edit_similarity "cd x" "ab" ∧
    0 ≤ word_edit_similarity "ab" "cd x" ∧ word_edit_similarity "ab" "cd x" ≤ 1 ∧
    word_edit_similarity "ab" "cd x" =
      1 - (word_edit_distance "ab" "cd x" : ℚ) /
        (max (extract_words "ab").length (extract_words "cd x").length : ℚ) := by
  obtain ⟨h1, h2, h3⟩ := word_edit_similarity_props
  obtain ⟨ha, hb, hc⟩ := h2 "ab" "cd x" (by decide) (by decide)
  refine ⟨h1 "ab" (by decide), ha, hb, hc, h3 "ab" "cd x" ?_⟩
  simp [extract_words, wordsAux, isWordChar]

theorem foldl_ite_add_eq_sum (f : ℕ → ℚ) (i : ℕ) : ∀ n : ℕ,
    (List.range n).foldl (fun acc j => if i ≠ j then acc + f j else acc) 0 =
      ∑ j in (Finset.range n).erase i, f j := by
  intro n
  induction n with
  | zero => simp
  | succ n ih =>
    rw [List.range_succ, List.foldl_append, ih]
    simp only [List.foldl_cons, List.foldl_nil]
    by_cases hin : i = n
    · subst hin
      rw [if_neg (by simp), Finset.range_succ, Finset.erase_insert (by simp),
        Finset.erase_eq_of_not_mem (by simp)]
    · rw [if_pos hin, Finset.range_succ, Finset.erase_insert_of_ne (fun h => hin h.symm),
        Finset.sum_insert (by simp)]
      ring

/-- C8: `get_text_differentiate_score` returns `[]` for no candidates and
`[1.0]` for one candidate; for `n ≥ 2` candidates the i-th output is the
mean over all `j ≠ i` of `1 - word_edit_similarity(candidate_i,
candidate_j)`; and both scores for the duplicated candidate
"the quick fox" are 0. -/
theorem get_text_differentiate_score_spec :
    get_text_differentiate_score ([] : List String) = [] ∧
    (∀ x : String, get_text_differentiate_score [x] = [1]) ∧
    (∀ texts : List String, 2 ≤ texts.length → ∀ i : ℕ, i < texts.length →
      (get_text_differentiate_score texts).getD i 0 =
        (∑ j in (Finset.range texts.length).erase i,
            (1 - word_edit_similarity (texts.getD i "") (texts.getD j ""))) /
          (((Finset.range texts.length).erase i).card : ℚ)) ∧
    get_text_differentiate_score ["the quick fox", "the quick fox"] = [0, 0] := by
  refine ⟨by simp [get_text_differentiate_score], ?_, ?_, ?_⟩
  · intro x
    simp [get_text_differentiate_score]
  · intro texts h2 i hi
    have hne : texts ≠ [] := by
      intro h
      rw [h] at h2
      simp at h2
    have hne1 : ¬ texts.length = 1 := by omega
    rw [get_text_differentiate_score, if_neg hne, if_neg hne1]
    have hmap : ((List.range texts.length).map
        (fun i => total_diff texts i / ((texts.length : ℚ) - 1))).getD i 0 =
        total_diff texts i / ((texts.length : ℚ) - 1) := by
      rw [List.getD_eq_getElem?_getD, List.getElem?_map, List.getElem?_range hi]
      rfl
    rw [hmap, total_diff, foldl_ite_add_eq_sum]
    rw [Finset.card_erase_of_mem (Finset.mem_range.mpr hi), Finset.card_range]
    congr 1
    push_cast [Nat.cast_sub (by omega : 1 ≤ texts.length)]
    ring
  · norm_num [get_text_differentiate_score, total_diff, word_edit_similarity,
      word_edit_distance, extract_words_quickfox, List.range_succ, wlev]
    simp

/-- Witness for C8: the mean formula instantiated at index 0 of the
two-candidate list `["a", "b c"]`. -/
theorem get_text_differentiate_score_spec_witness :
    (get_text_differentiate_score ["a", "b c"]).getD 0 0 =
      (∑ j in (Finset.range (["a", "b c"] : List String).length).erase 0,
          (1 - word_edit_similarity ((["a", "b c"] : List String).getD 0 "")
            ((["a", "b c"] : List String).getD j ""))) /
        (((Finset.range (["a", "b c"] : List String).length).erase 0).card : ℚ) :=
  get_text_differentiate_score_spec.2.2.1 ["a", "b c"] (by norm_num) 0 (by norm_num)

/-- C2: whenever `validate_responses` classifies at least one response as
valid, `ScoringManager.get_scores` raises `TypeError`, because the source
calls `self.redis_manager.get_scored_counter()` with no argument while the
method requires a `uids` parameter. No `(uids, scores)` result is returned
(the result is the error), the scoring oracle is never consulted (the
result does not depend on `oracle`), and the ledger state is returned
unchanged. -/
theorem get_scores_typeError (enc : String → Nat) (cfg : ValidatingConfig)
    (oracle : List String → List ℚ) (db : RedisDB)
    (responses : List (Option Synapse)) (synapse : Synapse) (uids : List ℤ)
    (valid : List (ℤ × Synapse)) (invalid : List (ℤ × Option Synapse × String))
    (hv : validate_responses enc cfg.max_compress_rate uids responses synapse =
      .ok (valid, invalid))
    (hne : valid ≠ []) :
    get_scores enc cfg oracle db responses synapse uids =
      (.error .typeError, db) := by
  simp [get_scores, hv, pyCall1, hne]

/-- Witness for C2: a call with one valid response (uid 2, compressed text
"ok") aborts with `TypeError` and leaves the empty ledger unchanged. -/
theorem get_scores_typeError_witness :
    get_scores wordTokens {} (fun _ => []) {} [some respOk] gtSyn [2] =
      (.error .typeError, ({} : RedisDB)) := by
  refine get_scores_typeError wordTokens {} (fun _ => []) {} [some respOk] gtSyn
    [2] [(2, respOk)] [] ?_ (by simp)
  norm_num [validate_responses, classify_one, Synapse.verify, get_compress_rate,
    compress_rate_prop, pyTruthy, gtSyn, respOk, wordTokens_gtCtx, wordTokens_ok,
    bind, Except.bind, pure, Except.pure]
  simp

/-- C4: the `uids_to_score` selection of the scoring stage never contains a
worker whose counter (as read at the scoring stage) is at or above
`max_scoring_count`, and a valid worker is selected iff its counter
(0 when missing) is strictly below `max_scoring_count`. -/
theorem uids_to_score_admission (valid_uids : List ℤ)
    (scored_counter : List (ℤ × ℤ)) (maxCount : ℤ) :
    (∀ uid : ℤ, maxCount ≤ dictGetD scored_counter uid 0 →
      uid ∉ uids_to_score_of valid_uids scored_counter maxCount) ∧
    (∀ uid ∈ valid_uids,
      (uid ∈ uids_to_score_of valid_uids scored_counter maxCount ↔
        dictGetD scored_counter uid 0 < maxCount)) := by
  constructor
  · intro uid hge hmem
    rw [uids_to_score_of, List.mem_filter] at hmem
    have h2 := hmem.2
    simp at h2
    omega
  · intro uid hmem
    constructor
    · intro h
      rw [uids_to_score_of, List.mem_filter] at h
      simpa using h.2
    · intro h
      rw [uids_to_score_of, List.mem_filter]
      exact ⟨hmem, by simpa using h⟩

/-- Witness for C4: with valid uids `[1, 2]`, counter `{1 ↦ 4}` and
maximum 4, worker 1 is excluded and worker 2 is selected iff its counter
0 is below 4. -/
theorem uids_to_score_admission_witness :
    (1 : ℤ) ∉ uids_to_score_of [1, 2] [(1, 4)] 4 ∧
    ((2 : ℤ) ∈ uids_to_score_of [1, 2] [(1, 4)] 4 ↔
      dictGetD [(1, 4)] 2 0 < 4) :=
  ⟨(uids_to_score_admission [1, 2] [(1, 4)] 4).1 1 (by simp [dictGetD]),
    (uids_to_score_admission [1, 2] [(1, 4)] 4).2 2 (by simp)⟩

theorem classify_one_uid (enc : String → Nat) (maxRate : ℚ) (gt : Synapse)
    (uid : ℤ) (r : Option Synapse)
    (o : (ℤ × Synapse) ⊕ (ℤ × Option Synapse × String))
    (h : classify_one enc maxRate gt uid r = .ok o) :
    (match o with | .inl p => p.1 | .inr t => t.1) = uid := by
  cases r with
  | none =>
    simp only [classify_one, Except.ok.injEq] at h
    subst h
    rfl
  | some s =>
    rw [classify_one] at h
    split_ifs at h with h1
    · simp only [Except.ok.injEq] at h
      subst h
      rfl
    · cases hv : s.verify enc maxRate with
      | error e =>
        rw [hv] at h
        simp [bind, Except.bind] at h
      | ok v =>
        rw [hv] at h
        simp only [bind, Except.bind] at h
        split_ifs at h with h2
        · simp only [Except.ok.injEq] at h
          subst h
          rfl
        · cases hr : get_compress_rate enc s gt.context with
          | error e =>
            rw [hr] at h
            simp at h
          | ok rate =>
            rw [hr] at h
            simp only [] at h
            split_ifs at h with h3 h4 <;>
              (simp only [Except.ok.injEq] at h; subst h; rfl)

theorem validate_responses_partition_perm (enc : String → Nat) (maxRate : ℚ)
    (gt : Synapse) :
    ∀ (uids : List ℤ) (responses : List (Option Synapse))
      (valid : List (ℤ × Synapse)) (invalid : List (ℤ × Option Synapse × String)),
      uids.length = responses.length →
      validate_responses enc maxRate uids responses gt = .ok (valid, invalid) →
      (valid.map (fun p => p.1) ++ invalid.map (fun t => t.1)).Perm uids := by
  intro uids
  induction uids with
  | nil =>
    intro responses valid invalid hlen hv
    cases responses with
    | nil =>
      simp only [validate_responses, Except.ok.injEq, Prod.mk.injEq] at hv
      obtain ⟨h1, h2⟩ := hv
      subst h1
      subst h2
      simp
    | cons r rs => simp at hlen
  | cons u us ih =>
    intro responses valid invalid hlen hv
    cases responses with
    | nil => simp at hlen
    | cons r rs =>
      have hlen' : us.length = rs.length := by simpa using hlen
      rw [validate_responses] at hv
      cases ho : classify_one enc maxRate gt u r with
      | error e =>
        rw [ho] at hv
        simp [bind, Except.bind] at hv
      | ok o =>
        rw [ho] at hv
        simp only [bind, Except.bind] at hv
        cases hrec : validate_responses enc maxRate us rs gt with
        | error e =>
          rw [hrec] at hv
          simp at hv
        | ok vi =>
          rw [hrec] at hv
          obtain ⟨v2, i2⟩ := vi
          have huid := classify_one_uid enc maxRate gt u r o ho
          have hperm := ih rs v2 i2 hlen' hrec
          cases o with
          | inl ve =>
            simp only [Except.ok.injEq, Prod.mk.injEq] at hv
            obtain ⟨h1, h2⟩ := hv
            subst h1
            subst h2
            simp only at huid
            simp only [List.map_cons, List.cons_append]
            rw [huid]
            exact hperm.cons u
          | inr ie =>
            simp only [Except.ok.injEq, Prod.mk.injEq] at hv
            obtain ⟨h1, h2⟩ := hv
            subst h1
            subst h2
            simp only at huid
            simp only [List.map_cons]
            refine List.Perm.trans List.perm_middle ?_
            rw [huid]
            exact hperm.cons u

theorem foldl_overwrite_keep (u : ℤ) :
    ∀ (pairs : List (ℤ × ℚ)) (a : ℚ), (∀ p ∈ pairs, p.1 ≠ u) →
      pairs.foldl (fun acc p => if p.1 = u then p.2 else acc) a = a := by
  intro pairs
  induction pairs with
  | nil => intro a _; rfl
  | cons p t ih =>
    intro a h
    simp only [List.foldl_cons]
    rw [if_neg (h p (List.mem_cons_self p t))]
    exact ih a (fun q hq => h q (List.mem_cons_of_mem p hq))

theorem valid_scores_dict_fun_not_mem (uts : List ℤ) (fs : List ℚ) (u : ℤ)
    (h : u ∉ uts) : valid_scores_dict_fun uts fs u = 0 := by
  rw [valid_scores_dict_fun]
  apply foldl_overwrite_keep
  intro p hp
  obtain ⟨x, y⟩ := p
  have hx := (List.of_mem_zip hp).1
  intro he
  simp only at he
  exact h (he ▸ hx)

theorem getD_map_const_zero {α : Type} :
    ∀ (l : List α) (k : ℕ), (l.map (fun _ => (0 : ℚ))).getD k 0 = 0 := by
  intro l
  induction l with
  | nil => intro k; simp
  | cons x t ih =>
    intro k
    cases k with
    | zero => simp
    | succ n => simp only [List.map_cons, List.getD_cons_succ]; exact ih n

theorem get_scores_after_counter_no_eligible (enc : String → Nat)
    (cfg : ValidatingConfig) (oracle : List String → List ℚ) (db : RedisDB)
    (synapse : Synapse) (valid : List (ℤ × Synapse))
    (invalid : List (ℤ × Option Synapse × String)) (counter : List (ℤ × ℤ))
    (h : uids_to_score_of (valid.map (fun p => p.1)) counter
      cfg.scoring_rate.max_scoring_count = []) :
    get_scores_after_counter enc cfg oracle db synapse valid invalid counter =
      (.ok (invalid.map (fun t => t.1), invalid.map (fun _ => (0 : ℚ))), db) := by
  simp [get_scores_after_counter, h]

theorem get_scores_after_counter_calc_error (enc : String → Nat)
    (cfg : ValidatingConfig) (oracle : List String → List ℚ) (db : RedisDB)
    (synapse : Synapse) (valid : List (ℤ × Synapse))
    (invalid : List (ℤ × Option Synapse × String)) (counter : List (ℤ × ℤ))
    (e : PyErr)
    (h : uids_to_score_of (valid.map (fun p => p.1)) counter
      cfg.scoring_rate.max_scoring_count ≠ [])
    (hc : calculate_compress_rates enc synapse.user_message
        (compressed_to_score valid
          (uids_to_score_of (valid.map (fun p => p.1)) counter
            cfg.scoring_rate.max_scoring_count)) = .error e) :
    get_scores_after_counter enc cfg oracle db synapse valid invalid counter =
      (.error e, db) := by
  rw [get_scores_after_counter]
  rw [if_neg h]
  simp only [hc]

theorem get_scores_after_counter_eligible (enc : String → Nat)
    (cfg : ValidatingConfig) (oracle : List String → List ℚ) (db : RedisDB)
    (synapse : Synapse) (valid : List (ℤ × Synapse))
    (invalid : List (ℤ × Option Synapse × String)) (counter : List (ℤ × ℤ))
    (crs : List ℚ)
    (h : uids_to_score_of (valid.map (fun p => p.1)) counter
      cfg.scoring_rate.max_scoring_count ≠ [])
    (hc : calculate_compress_rates enc synapse.user_message
        (compressed_to_score valid
          (uids_to_score_of (valid.map (fun p => p.1)) counter
            cfg.scoring_rate.max_scoring_count)) = .ok crs) :
    get_scores_after_counter enc cfg oracle db synapse valid invalid counter =
      (.ok (invalid.map (fun t => t.1) ++ valid.map (fun p => p.1),
          invalid.map (fun _ => (0 : ℚ)) ++
            (valid.map (fun p => p.1)).map
              (valid_scores_dict_fun
                (uids_to_score_of (valid.map (fun p => p.1)) counter
                  cfg.scoring_rate.max_scoring_count)
                (SCORE_ENSEMBLE
                  (oracle (compressed_to_score valid
                    (uids_to_score_of (valid.map (fun p => p.1)) counter
                      cfg.scoring_rate.max_scoring_count)))
                  crs
                  (get_text_differentiate_score (compressed_to_score valid
                    (uids_to_score_of (valid.map (fun p => p.1)) counter
                      cfg.scoring_rate.max_scoring_count)))))),
        update_scoring_records db
          (uids_to_score_of (valid.map (fun p => p.1)) counter
            cfg.scoring_rate.max_scoring_count) cfg.scoring_rate) := by
  rw [get_scores_after_counter]
  rw [if_neg h]
  simp only [hc]

/-- C3 (amended): in the scoring stage, when at least one valid worker is
eligible, the `(finalUids, finalScores)` output contains every invalid
worker with score 0 followed by every valid worker, and an ineligible
valid worker's score is 0; when no valid worker is eligible the code
instead reassigns `valid_uids = []`, so the output contains only the
invalid workers with score 0 and the valid workers are dropped. -/
theorem get_scores_after_counter_output (enc : String → Nat)
    (cfg : ValidatingConfig) (oracle : List String → List ℚ) (db : RedisDB)
    (synapse : Synapse) (valid : List (ℤ × Synapse))
    (invalid : List (ℤ × Option Synapse × String)) (counter : List (ℤ × ℤ)) :
    (∀ fu fs,
      (get_scores_after_counter enc cfg oracle db synapse valid invalid
          counter).1 = .ok (fu, fs) →
      fs.length = fu.length ∧
      (∀ k, k < invalid.length → fs.getD k 0 = 0) ∧
      (uids_to_score_of (valid.map (fun p => p.1)) counter
          cfg.scoring_rate.max_scoring_count ≠ [] →
        fu = invalid.map (fun t => t.1) ++ valid.map (fun p => p.1) ∧
        (∀ k, k < valid.length →
          (valid.map (fun p => p.1)).getD k 0 ∉
            uids_to_score_of (valid.map (fun p => p.1)) counter
              cfg.scoring_rate.max_scoring_count →
          fs.getD (invalid.length + k) 0 = 0))) ∧
    (uids_to_score_of (valid.map (fun p => p.1)) counter
        cfg.scoring_rate.max_scoring_count = [] →
      (get_scores_after_counter enc cfg oracle db synapse valid invalid
          counter).1 =
        .ok (invalid.map (fun t => t.1), invalid.map (fun _ => (0 : ℚ)))) := by
  constructor
  · intro fu fs hres
    by_cases huts : uids_to_score_of (valid.map (fun p => p.1)) counter
        cfg.scoring_rate.max_scoring_count = []
    · rw [get_scores_after_counter_no_eligible enc cfg oracle db synapse valid
        invalid counter huts] at hres
      simp only [Except.ok.injEq, Prod.mk.injEq] at hres
      obtain ⟨h1, h2⟩ := hres
      subst h1
      subst h2
      refine ⟨by simp, ?_, ?_⟩
      · intro k _
        exact getD_map_const_zero invalid k
      · intro h
        exact absurd huts h
    · cases hc : calculate_compress_rates enc synapse.user_message
          (compressed_to_score valid
            (uids_to_score_of (valid.map (fun p => p.1)) counter
              cfg.scoring_rate.max_scoring_count)) with
      | error e =>
        rw [get_scores_after_counter_calc_error enc cfg oracle db synapse valid
          invalid counter e huts hc] at hres
        simp at hres
      | ok crs =>
        rw [get_scores_after_counter_eligible enc cfg oracle db synapse valid
          invalid counter crs huts hc] at hres
        simp only [Except.ok.injEq, Prod.mk.injEq] at hres
        obtain ⟨h1, h2⟩ := hres
        subst h1
        subst h2
        refine ⟨by simp, ?_, ?_⟩
        · intro k hk
          rw [List.getD_append _ _ _ _ (by simpa using hk)]
          exact getD_map_const_zero invalid k
        · intro _
          refine ⟨rfl, ?_⟩
          intro k hk hnotmem
          rw [List.getD_append_right _ _ _ _ (by simp)]
          have hidx : invalid.length + k -
              (invalid.map (fun _ => (0 : ℚ))).length = k := by
            simp
          rw [hidx]
          have hkv : k < (valid.map (fun p => p.1)).length := by
            simpa using hk
          rw [List.getD_eq_getElem?_getD, List.getElem?_map,
            List.getElem?_eq_getElem hkv]
          simp only [Option.map_some', Option.getD_some]
          have hget : (valid.map (fun p => p.1)).get ⟨k, hkv⟩ =
              (valid.map (fun p => p.1)).getD k 0 := by
            rw [List.getD_eq_getElem?_getD, List.getElem?_eq_getElem hkv]
            rfl
          rw [List.get_eq_getElem] at hget
          rw [hget]
          exact valid_scores_dict_fun_not_mem _ _ _ hnotmem
  · intro huts
    rw [get_scores_after_counter_no_eligible enc cfg oracle db synapse valid
      invalid counter huts]


/-- Counterexample for C3: with one invalid worker (uid 1) and one valid
worker (uid 2) whose counter 4 is at the maximum, the output of the
scoring stage is `([1], [0])`: the valid-but-ineligible worker 2 does not
appear in the output at all, contradicting the claim that every valid
worker appears (with score 0 when unscored). -/
theorem get_scores_after_counter_drops_unscored_valid :
    (get_scores_after_counter wordTokens {} (fun _ => []) {} gtSyn
        [(2, respOk)] [(1, none, "no_response")] [(2, 4)]).1 =
      .ok ([1], [0]) ∧ (2 : ℤ) ∉ ([1] : List ℤ) := by
  constructor
  · simp [get_scores_after_counter, uids_to_score_of, dictGetD]
  · simp

/-- Witness for C3 (amended): a concrete eligible run (valid uid 2 with
counter map empty, invalid uid 1, oracle raw score 1) returns
`([1, 2], [0, 49/50])`; the theorem instance gives the length equality and
the score 0 of the invalid worker at position 0. -/
theorem get_scores_after_counter_output_witness :
    (get_scores_after_counter wordTokens {} (fun _ => [1]) {} gtSyn
        [(2, respOk)] [(1, none, "no_response")] []).1 =
      .ok ([1, 2], [0, 49 / 50]) ∧
    ([0, (49 / 50 : ℚ)] : List ℚ).length = ([1, 2] : List ℤ).length ∧
    ([0, (49 / 50 : ℚ)] : List ℚ).getD 0 0 = 0 := by
  have heval : (get_scores_after_counter wordTokens {} (fun _ => [1]) {} gtSyn
      [(2, respOk)] [(1, none, "no_response")] []).1 =
      .ok ([1, 2], [0, 49 / 50]) := by
    norm_num [get_scores_after_counter, uids_to_score_of, dictGetD,
      compressed_to_score, valid_responses_dict, respOk, calculate_compress_rates,
      wordTokens_gtCtx, wordTokens_ok, gtSyn, get_text_differentiate_score,
      SCORE_ENSEMBLE, valid_scores_dict_fun]
  have h := (get_scores_after_counter_output wordTokens {} (fun _ => [1]) {} gtSyn
    [(2, respOk)] [(1, none, "no_response")] []).1 [1, 2] [0, 49 / 50] heval
  exact ⟨heval, h.1, h.2.1 0 (by norm_num)⟩

/-- C7 (amended): every input worker id appears in exactly one output
partition of `validate_responses` exactly once (the concatenated id lists
are a permutation of the input, and each id has total count 1 when the
input ids are distinct); `finalScores` always has the same length as
`finalUids`; and `finalUids` is the concatenation invalid ++ valid when at
least one valid worker is eligible for scoring, but only the invalid ids
when valid workers exist and none is eligible (the code reassigns
`valid_uids = []` in that branch). -/
theorem partition_and_final_order (enc : String → Nat) (maxRate : ℚ)
    (gt : Synapse) :
    (∀ (uids : List ℤ) (responses : List (Option Synapse))
        (valid : List (ℤ × Synapse))
        (invalid : List (ℤ × Option Synapse × String)),
      uids.length = responses.length →
      validate_responses enc maxRate uids responses gt = .ok (valid, invalid) →
      (valid.map (fun p => p.1) ++ invalid.map (fun t => t.1)).Perm uids ∧
      (uids.Nodup → ∀ u ∈ uids,
        (valid.map (fun p => p.1)).count u +
          (invalid.map (fun t => t.1)).count u = 1)) ∧
    (∀ (cfg : ValidatingConfig) (oracle : List String → List ℚ) (db : RedisDB)
        (synapse : Synapse) (valid : List (ℤ × Synapse))
        (invalid : List (ℤ × Option Synapse × String))
        (counter : List (ℤ × ℤ)) (fu : List ℤ) (fs : List ℚ),
      (get_scores_after_counter enc cfg oracle db synapse valid invalid
          counter).1 = .ok (fu, fs) →
      fs.length = fu.length ∧
      (uids_to_score_of (valid.map (fun p => p.1)) counter
          cfg.scoring_rate.max_scoring_count ≠ [] →
        fu = invalid.map (fun t => t.1) ++ valid.map (fun p => p.1)) ∧
      (uids_to_score_of (valid.map (fun p => p.1)) counter
          cfg.scoring_rate.max_scoring_count = [] →
        fu = invalid.map (fun t => t.1))) := by
  constructor
  · intro uids responses valid invalid hlen hv
    have hperm := validate_responses_partition_perm enc maxRate gt uids responses
      valid invalid hlen hv
    refine ⟨hperm, ?_⟩
    intro hnd u hu
    have hcount := hperm.count_eq u
    rw [List.count_append] at hcount
    rw [hcount]
    exact List.count_eq_one_of_mem hnd hu
  · intro cfg oracle db synapse valid invalid counter fu fs hres
    by_cases huts : uids_to_score_of (valid.map (fun p => p.1)) counter
        cfg.scoring_rate.max_scoring_count = []
    · rw [get_scores_after_counter_no_eligible enc cfg oracle db synapse valid
        invalid counter huts] at hres
      simp only [Except.ok.injEq, Prod.mk.injEq] at hres
      obtain ⟨h1, h2⟩ := hres
      subst h1
      subst h2
      exact ⟨by simp, fun h => absurd huts h, fun _ => rfl⟩
    · cases hc : calculate_compress_rates enc synapse.user_message
          (compressed_to_score valid
            (uids_to_score_of (valid.map (fun p => p.1)) counter
              cfg.scoring_rate.max_scoring_count)) with
      | error e =>
        rw [get_scores_after_counter_calc_error enc cfg oracle db synapse valid
          invalid counter e huts hc] at hres
        simp at hres
      | ok crs =>
        rw [get_scores_after_counter_eligible enc cfg oracle db synapse valid
          invalid counter crs huts hc] at hres
        simp only [Except.ok.injEq, Prod.mk.injEq] at hres
        obtain ⟨h1, h2⟩ := hres
        subst h1
        subst h2
        exact ⟨by simp, fun _ => rfl, fun h => absurd h huts⟩

/-- Counterexample for C7: with invalid worker 4 and valid-but-ineligible
worker 5, `finalUids` is `[4]`, not the claimed concatenation
`invalidIds ++ validIds = [4, 5]`. -/
theorem final_uids_drop_order_counterexample :
    (get_scores_after_counter wordTokens {} (fun _ => []) {} gtSyn
        [(5, respOk)] [(4, none, "no_response")] [(5, 4)]).1 =
      .ok ([4], [0]) ∧
    ([4] : List ℤ) ≠
      ([(4, none, "no_response")] : List (ℤ × Option Synapse × String)).map
          (fun t => t.1) ++
        ([(5, respOk)] : List (ℤ × Synapse)).map (fun p => p.1) := by
  constructor
  · simp [get_scores_after_counter, uids_to_score_of, dictGetD]
  · simp

/-- Witness for C7 (amended): the partition instantiated at uids `[7]`
with an absent response, and the length equality instantiated at a cycle
with invalid worker 8 and ineligible valid worker 9. -/
theorem partition_and_final_order_witness :
    ((([] : List (ℤ × Synapse)).map (fun p => p.1) ++
        ([(7, none, "no_response")] : List (ℤ × Option Synapse × String)).map
          (fun t => t.1)).Perm [7]) ∧
    ([(0 : ℚ)] : List ℚ).length = ([8] : List ℤ).length := by
  constructor
  · exact ((partition_and_final_order wordTokens (4 / 5) gtSyn).1 [7] [none] []
      [(7, none, "no_response")] rfl
      (by simp [validate_responses, classify_one, bind, Except.bind])).1
  · exact ((partition_and_final_order wordTokens (4 / 5) gtSyn).2 {}
      (fun _ => []) {} gtSyn [(9, respOk)] [(8, none, "no_response")] [(9, 4)]
      [8] [0]
      (by simp [get_scores_after_counter, uids_to_score_of, dictGetD])).1

theorem assocGet_assocSet_self {α : Type} (m : List (RKey × α)) (k : RKey)
    (v : α) : assocGet (assocSet m k v) k = some v := by
  simp [assocGet, assocSet]

theorem assocGet_assocSet_ne {α : Type} (m : List (RKey × α)) (k k' : RKey)
    (v : α) (h : k' ≠ k) : assocGet (assocSet m k v) k' = assocGet m k' := by
  rw [assocGet, assocSet]
  rw [List.find?_cons_of_neg _ (by simp [h.symm])]
  induction m with
  | nil => rfl
  | cons p t ih =>
    by_cases hp : p.1 = k
    · rw [List.filter_cons_of_neg (by simp [hp])]
      rw [assocGet, List.find?_cons_of_neg _ (by simp [hp, h.symm])]
      exact ih
    · rw [List.filter_cons_of_pos (by simp [hp])]
      by_cases hp' : p.1 = k'
      · rw [List.find?_cons_of_pos _ (by simp [hp']), assocGet,
          List.find?_cons_of_pos _ (by simp [hp'])]
      · rw [List.find?_cons_of_neg _ (by simp [hp']), assocGet,
          List.find?_cons_of_neg _ (by simp [hp'])]
        exact ih

theorem update_scoring_records_cons (db : RedisDB) (u : ℤ) (t : List ℤ)
    (cfg : ScoringRateConfig) :
    update_scoring_records db (u :: t) cfg =
      update_scoring_records
        ((db.incr (cfg.redis_key, u)).expire (cfg.redis_key, u) cfg.interval)
        t cfg := by
  rfl

theorem update_scoring_records_kv_not_mem (cfg : ScoringRateConfig) (uid : ℤ) :
    ∀ (uids : List ℤ) (db : RedisDB), uid ∉ uids →
      assocGet (update_scoring_records db uids cfg).kv (cfg.redis_key, uid) =
        assocGet db.kv (cfg.redis_key, uid) := by
  intro uids
  induction uids with
  | nil => intro db _; rfl
  | cons u t ih =>
    intro db h
    have hne : uid ≠ u := fun he => h (he ▸ List.mem_cons_self u t)
    rw [update_scoring_records_cons]
    rw [ih _ (fun hm => h (List.mem_cons_of_mem u hm))]
    show assocGet (assocSet db.kv (cfg.redis_key, u) _) (cfg.redis_key, uid) = _
    exact assocGet_assocSet_ne _ _ _ _ (by simp [hne])

theorem update_scoring_records_kv_mem (cfg : ScoringRateConfig) (uid : ℤ) :
    ∀ (uids : List ℤ) (db : RedisDB), uid ∈ uids → uids.Nodup →
      assocGet (update_scoring_records db uids cfg).kv (cfg.redis_key, uid) =
        some ((assocGet db.kv (cfg.redis_key, uid)).getD 0 + 1) := by
  intro uids
  induction uids with
  | nil => intro db h _; simp at h
  | cons u t ih =>
    intro db hmem hnd
    rw [update_scoring_records_cons]
    rcases List.mem_cons.mp hmem with he | ht
    · subst he
      have hnott : uid ∉ t := (List.nodup_cons.mp hnd).1
      rw [update_scoring_records_kv_not_mem cfg uid t _ hnott]
      show assocGet (assocSet db.kv (cfg.redis_key, uid) _) (cfg.redis_key, uid) =
        _
      rw [assocGet_assocSet_self]
    · have hne : uid ≠ u := fun he => (List.nodup_cons.mp hnd).1 (he ▸ ht)
      rw [ih _ ht (List.nodup_cons.mp hnd).2]
      congr 1
      show (assocGet (assocSet db.kv (cfg.redis_key, u) _)
        (cfg.redis_key, uid)).getD 0 + 1 = _
      rw [assocGet_assocSet_ne _ _ _ _ (by simp [hne])]

theorem update_scoring_records_ttl_not_mem (cfg : ScoringRateConfig) (uid : ℤ) :
    ∀ (uids : List ℤ) (db : RedisDB), uid ∉ uids →
      assocGet (update_scoring_records db uids cfg).ttl (cfg.redis_key, uid) =
        assocGet db.ttl (cfg.redis_key, uid) := by
  intro uids
  induction uids with
  | nil => intro db _; rfl
  | cons u t ih =>
    intro db h
    have hne : uid ≠ u := fun he => h (he ▸ List.mem_cons_self u t)
    rw [update_scoring_records_cons]
    rw [ih _ (fun hm => h (List.mem_cons_of_mem u hm))]
    show assocGet (assocSet (db.incr (cfg.redis_key, u)).ttl (cfg.redis_key, u)
      cfg.interval) (cfg.redis_key, uid) = _
    exact assocGet_assocSet_ne _ _ _ _ (by simp [hne])

theorem update_scoring_records_ttl_mem (cfg : ScoringRateConfig) (uid : ℤ) :
    ∀ (uids : List ℤ) (db : RedisDB), uid ∈ uids → uids.Nodup →
      assocGet (update_scoring_records db uids cfg).ttl (cfg.redis_key, uid) =
        some cfg.interval := by
  intro uids
  induction uids with
  | nil => intro db h _; simp at h
  | cons u t ih =>
    intro db hmem hnd
    rw [update_scoring_records_cons]
    rcases List.mem_cons.mp hmem with he | ht
    · subst he
      have hnott : uid ∉ t := (List.nodup_cons.mp hnd).1
      rw [update_scoring_records_ttl_not_mem cfg uid t _ hnott]
      show assocGet (assocSet (db.incr (cfg.redis_key, uid)).ttl
        (cfg.redis_key, uid) cfg.interval) (cfg.redis_key, uid) = _
      rw [assocGet_assocSet_self]
    · exact ih _ ht (List.nodup_cons.mp hnd).2

theorem get_scored_counter_not_mem (db : RedisDB) (uid : ℤ) :
    ∀ uids : List ℤ, uid ∉ uids →
      dictGetD (get_scored_counter db uids) uid 0 = 0 := by
  intro uids
  induction uids with
  | nil => intro _; rfl
  | cons u t ih =>
    intro h
    have hne : uid ≠ u := fun he => h (he ▸ List.mem_cons_self u t)
    have ht : uid ∉ t := fun hm => h (List.mem_cons_of_mem u hm)
    rw [get_scored_counter, List.filterMap_cons]
    cases hg : assocGet db.kv ("scored_uid", u) with
    | none =>
      simp only []
      exact ih ht
    | some c =>
      simp only []
      rw [dictGetD, List.find?_cons_of_neg _ (by simp [Ne.symm hne])]
      exact ih ht

theorem get_scored_counter_mem (db : RedisDB) (uid : ℤ) :
    ∀ uids : List ℤ, uid ∈ uids → uids.Nodup →
      dictGetD (get_scored_counter db uids) uid 0 =
        (assocGet db.kv ("scored_uid", uid)).getD 0 := by
  intro uids
  induction uids with
  | nil => intro h _; simp at h
  | cons u t ih =>
    intro hmem hnd
    rw [get_scored_counter, List.filterMap_cons]
    rcases List.mem_cons.mp hmem with he | ht
    · subst he
      have hnott : uid ∉ t := (List.nodup_cons.mp hnd).1
      cases hg : assocGet db.kv ("scored_uid", uid) with
      | none =>
        simp only []
        rw [show get_scored_counter db t =
          List.filterMap _ t from rfl] at *
        have := get_scored_counter_not_mem db uid t hnott
        rw [get_scored_counter] at this
        rw [this]
        rfl
      | some c =>
        simp only []
        rw [dictGetD, List.find?_cons_of_pos _ (by simp)]
        rfl
    · have hne : uid ≠ u := fun he => (List.nodup_cons.mp hnd).1 (he ▸ ht)
      have ihr := ih ht (List.nodup_cons.mp hnd).2
      cases hg : assocGet db.kv ("scored_uid", u) with
      | none =>
        simp only []
        rw [get_scored_counter] at ihr
        exact ihr
      | some c =>
        simp only []
        rw [dictGetD, List.find?_cons_of_neg _ (by simp [Ne.symm hne])]
        rw [dictGetD, get_scored_counter] at ihr
        exact ihr


/-- C6 (amended): for every duplicate-free worker id list and configured
interval, one call to `update_scoring_records` increases each listed
worker's counter, as read back through `get_scored_counter`, by exactly 1
(missing counter counting as 0) and sets the worker's TTL to the
configured interval; in particular after recording `[w]` the counter of
`w` is one greater than before. (For a list with duplicates the counter
grows by the number of occurrences, which is the counterexample to the
claim as stated.) -/
theorem recordScored_increments (interval : ℕ) (m : ℤ) (db : RedisDB)
    (uids : List ℤ) (hnd : uids.Nodup) :
    ∀ uid ∈ uids,
      dictGetD (get_scored_counter
          (update_scoring_records db uids ⟨interval, m, "scored_uid"⟩) uids)
          uid 0 =
        dictGetD (get_scored_counter db uids) uid 0 + 1 ∧
      assocGet (update_scoring_records db uids ⟨interval, m, "scored_uid"⟩).ttl
          ("scored_uid", uid) = some interval := by
  intro uid hmem
  constructor
  · rw [get_scored_counter_mem _ uid uids hmem hnd,
      get_scored_counter_mem _ uid uids hmem hnd]
    have hkv := update_scoring_records_kv_mem ⟨interval, m, "scored_uid"⟩ uid
      uids db hmem hnd
    simp only [] at hkv
    rw [hkv]
    simp
  · have httl := update_scoring_records_ttl_mem ⟨interval, m, "scored_uid"⟩ uid
      uids db hmem hnd
    simpa using httl

/-- Counterexample for C6: recording the list `[5, 5]` on an empty ledger
leaves worker 5's counter at 2, not at one more than its previous value 0,
because the pipeline issues one INCR per list entry. -/
theorem recordScored_duplicate_counterexample :
    ¬ (dictGetD (get_scored_counter
          (update_scoring_records {} [5, 5] {}) [5]) 5 0 =
        dictGetD (get_scored_counter ({} : RedisDB) [5]) 5 0 + 1) := by
  simp [update_scoring_records, get_scored_counter, dictGetD, assocGet,
    assocSet, RedisDB.incr, RedisDB.expire]

/-- Witness for C6 (amended): recording `[7]` with interval 600 on an empty
ledger gives counter 1 = 0 + 1 and TTL 600. -/
theorem recordScored_increments_witness :
    dictGetD (get_scored_counter
        (update_scoring_records {} [7] ⟨600, 4, "scored_uid"⟩) [7]) 7 0 =
      dictGetD (get_scored_counter ({} : RedisDB) [7]) 7 0 + 1 ∧
    assocGet (update_scoring_records {} [7] ⟨600, 4, "scored_uid"⟩).ttl
        ("scored_uid", 7) = some 600 :=
  recordScored_increments 600 4 {} [7] (by simp) 7 (by simp)

end CondensesValidating
